import Mathlib

/-!
Shallow embedding of the BLE GATT server in src/bluetooth.rs
(struct State, struct Connection, and the methods of BluetoothManager:
create_conn, delete_conn, recv, the Read arm of on_gatts_event,
confirm_indication, the Confirm arm, indicate, get_received_data),
together with theorems settling the specification claims about it.

Modelling conventions:
- BdAddr, Handle and ConnectionId are opaque identifiers, modelled as Nat.
- Bytes are modelled as Nat; where a claim depends on byte range the
  theorem carries an explicit bound b < 256.
- The heapless::Vec<Connection, MAX_CONNECTIONS> is a List Connection;
  its capacity bound is enforced, as in the source, by the length guard
  in create_conn.
- The three Mutex-protected blocks of BluetoothManager (state,
  is_connected, received_data) are combined into one record BTState;
  each Rust method that takes the locks becomes a pure function on it.
- Rust heapless::Vec::swap_remove is modelled by swapRemove below.
-/

abbrev BdAddr := Nat
abbrev Handle := Nat
abbrev ConnectionId := Nat

/-- const MAX_CONNECTIONS: usize = 2 (bluetooth.rs line 24). -/
def MAX_CONNECTIONS : Nat := 2

/-- struct Connection (bluetooth.rs lines 26-32). -/
structure Connection where
  peer : BdAddr
  conn_id : Handle
  subscribed : Bool
  mtu : Option Nat
deriving Repr, DecidableEq, Inhabited

/-- The shared mutable state of BluetoothManager: struct State
(bluetooth.rs lines 34-44) together with the separately locked
is_connected flag and received_data buffer (lines 51-52).
The GattResponse scratch field carries no observable state and is
omitted. -/
structure BTState where
  gatt_if : Option Nat
  service_handle : Option Handle
  recv_handle : Option Handle
  ind_handle : Option Handle
  ind_cccd_handle : Option Handle
  connections : List Connection
  ind_confirmed : Option BdAddr
  connected : Bool
  received_data : List Nat
deriving Repr, DecidableEq, Inhabited

/-- The all-None / empty initial state produced by BluetoothManager::new. -/
def initBT : BTState :=
  { gatt_if := none, service_handle := none, recv_handle := none,
    ind_handle := none, ind_cccd_handle := none, connections := [],
    ind_confirmed := none, connected := false, received_data := [] }

/-- heapless::Vec::swap_remove i: the element at index i is replaced by
the last element and the vector is shortened by one. -/
def swapRemove {α : Type} (l : List α) (i : Nat) : List α :=
  match l.getLast? with
  | none => []
  | some last => (l.set i last).dropLast

/-- BluetoothManager::create_conn (bluetooth.rs lines 456-488): pushes a
new Connection (subscribed = false, mtu = None) when the table is below
MAX_CONNECTIONS; when added, the coarse is_connected flag is set to true.
Returns the updated state and whether the entry was added. -/
def create_conn (s : BTState) (cid : ConnectionId) (addr : BdAddr) :
    BTState × Bool :=
  if s.connections.length < MAX_CONNECTIONS then
    ({ s with
        connections := s.connections ++ [⟨addr, cid, false, none⟩],
        connected := true }, true)
  else
    (s, false)

/-- BluetoothManager::delete_conn (bluetooth.rs lines 491-518): removes
the first entry whose peer equals addr by swap_remove (if any),
unconditionally sets the coarse is_connected flag to false, and requests
an advertising restart when the table is empty afterwards. Returns the
updated state and the number of advertising-restart requests issued. -/
def delete_conn (s : BTState) (addr : BdAddr) : BTState × Nat :=
  let conns :=
    match s.connections.findIdx? (fun c => c.peer == addr) with
    | some i => swapRemove s.connections i
    | none => s.connections
  let restarts := if conns.isEmpty then 1 else 0
  ({ s with connections := conns, connected := false }, restarts)

/-- BluetoothManager::recv (bluetooth.rs lines 522-574): the write-event
handler. Looks up the connection by conn_id (first match of
iter_mut().find); with no match returns handled = false and leaves all
state unchanged. For the CCCD handle, a write at offset 0 with exactly
two bytes sets subscribed to (u16_le value == 0x02); the source guards
the assignment by the current flag but the net effect is this assignment,
and other offsets or lengths change nothing; either way handled = true.
For the recv handle the payload is appended to received_data. Any other
handle is not handled. -/
def recv (s : BTState) (cid : ConnectionId) (handle : Handle)
    (offset : Nat) (value : List Nat) : BTState × Bool :=
  match s.connections.findIdx? (fun c => c.conn_id == cid) with
  | none => (s, false)
  | some j =>
      if s.ind_cccd_handle = some handle then
        if offset = 0 ∧ value.length = 2 then
          let v := value.getD 0 0 + 256 * value.getD 1 0
          let c := s.connections.getD j default
          ({ s with
              connections := s.connections.set j { c with subscribed := v == 2 } },
           true)
        else
          (s, true)
      else if s.recv_handle = some handle then
        ({ s with received_data := s.received_data ++ value }, true)
      else
        (s, false)

/-- The Write arm of on_gatts_event (bluetooth.rs lines 271-303) composed
with send_write_response (lines 578-617): when recv reports the write
handled, a response is sent exactly when need_rsp holds; an unhandled
write sends no response. Returns the state after recv and whether a
response was sent. -/
def onWriteEvent (s : BTState) (cid : ConnectionId) (handle : Handle)
    (offset : Nat) (need_rsp : Bool) ( _is_prep : Bool)
    (value : List Nat) : BTState × Bool :=
  let r := recv s cid handle offset value
  if r.2 then (r.1, need_rsp) else (r.1, false)

/-- The GATT status codes from the platform stack, restricted to the
variants the source names (Ok, Error, InternalError, Busy) plus
representatives of the many remaining library variants, all of which
fall into the wildcard arm of check_gatt_status. -/
inductive RGattStatus where
  | ok
  | error
  | internalError
  | busy
  | invalidHandle
  | congested
  | wrongState
deriving Repr, DecidableEq

/-- BluetoothManager::check_gatt_status (bluetooth.rs lines 733-754):
Ok succeeds; Error, InternalError and Busy fail; every other status is
tolerated and treated as success (with a warning side effect). -/
def check_gatt_status : RGattStatus → Bool
  | .ok => true
  | .error => false
  | .internalError => false
  | .busy => false
  | _ => true

/-- Outcome of handling a Confirm event. cleared also stands for the
condvar.notify_all() call that wakes every waiter blocked in indicate;
fatalAssert is the unreachable assertion in confirm_indication. -/
inductive ConfirmOutcome where
  | statusError
  | fatalAssert
  | cleared
deriving Repr, DecidableEq

/-- The Confirm arm of on_gatts_event (bluetooth.rs lines 304-313)
composed with confirm_indication (lines 620-630): a status rejected by
check_gatt_status stops processing with the state unchanged; otherwise,
with no pending marker the handler hits the fatal assertion, and with a
marker set it clears the marker and wakes all waiters. -/
def onConfirm (s : BTState) (status : RGattStatus) :
    ConfirmOutcome × BTState :=
  if check_gatt_status status then
    match s.ind_confirmed with
    | none => (.fatalAssert, s)
    | some _ => (.cleared, { s with ind_confirmed := none })
  else
    (.statusError, s)

/-- Response sent by the Read arm of on_gatts_event: a status and an
optional attribute value (None models the bare success/error response). -/
structure ReadResp where
  status : RGattStatus
  value : Option (List Nat)
deriving Repr, DecidableEq

/-- The Read arm of on_gatts_event (bluetooth.rs lines 208-270): the
recv and indicate characteristic handles answer Ok with no value, the
CCCD handle answers Ok with the fixed two bytes [0x00, 0x00], and any
other handle answers with an Error status. -/
def readDispatch (s : BTState) (handle : Handle) : ReadResp :=
  if s.recv_handle = some handle then ⟨.ok, none⟩
  else if s.ind_handle = some handle then ⟨.ok, none⟩
  else if s.ind_cccd_handle = some handle then ⟨.ok, some [0x00, 0x00]⟩
  else ⟨.error, none⟩

/-- One pass of the inner loop body of BluetoothManager::indicate
(bluetooth.rs lines 637-664) at slot i, under the state lock:
done when the slot index is beyond the table, notReady when gatt_if or
ind_handle is unset (both break to the next slot), blocked when an
indication is pending confirmation (the source waits on the condvar),
and otherwise the indication is issued to the connection at slot i and
the pending marker is set to that peer before the lock is released. -/
inductive SlotOutcome where
  | done
  | notReady
  | issued (peer : BdAddr) (s' : BTState)
  | blocked
deriving Repr, DecidableEq

def indicateSlotBody (s : BTState) (i : Nat) : SlotOutcome :=
  if s.connections.length ≤ i then .done
  else if s.gatt_if = none then .notReady
  else if s.ind_handle = none then .notReady
  else
    match s.ind_confirmed with
    | some _ => .blocked
    | none =>
        let conn := s.connections.getD i default
        .issued conn.peer { s with ind_confirmed := some conn.peer }

/-- The inner loop of indicate at slot i, in the environment where every
wait on the condvar is eventually answered by a Confirm event that
clears the pending marker: a blocked pass is re-run after the marker is
cleared. Returns the resulting state and the peers indicated (zero or
one) at this slot. -/
def runSlot (s : BTState) (i : Nat) : BTState × List BdAddr :=
  match indicateSlotBody s i with
  | .issued a s' => (s', [a])
  | .blocked =>
      let s₀ := { s with ind_confirmed := none }
      match indicateSlotBody s₀ i with
      | .issued a s' => (s', [a])
      | _ => (s₀, [])
  | _ => (s, [])

/-- BluetoothManager::indicate (bluetooth.rs lines 633-668): the outer
for loop over slot indices 0..MAX_CONNECTIONS, with waits resolved as in
runSlot. Returns the final state and the list of peers indicated, in
order. -/
def indicateRun (s : BTState) : BTState × List BdAddr :=
  (List.range MAX_CONNECTIONS).foldl
    (fun acc i =>
      let r := runSlot acc.1 i
      (r.1, acc.2 ++ r.2))
    (s, [])

/-- BluetoothManager::get_received_data (bluetooth.rs lines 679-687):
returns the buffered bytes and clears the buffer. -/
def get_received_data (s : BTState) : List Nat × BTState :=
  (s.received_data, { s with received_data := [] })

/-- Connection-table events, as delivered by the PeerConnected and
PeerDisconnected arms of on_gatts_event (bluetooth.rs lines 196-207). -/
inductive ConnEvent where
  | connect (cid : ConnectionId) (addr : BdAddr)
  | disconnect (addr : BdAddr)
deriving Repr, DecidableEq

def applyEvent (s : BTState) : ConnEvent → BTState
  | .connect cid addr => (create_conn s cid addr).1
  | .disconnect addr => (delete_conn s addr).1

def runEvents (s : BTState) (evs : List ConnEvent) : BTState :=
  evs.foldl applyEvent s

/-- An event sequence is fresh from state s when every connect event
carries an address not already present in the table at that point. -/
def freshConnects (s : BTState) : List ConnEvent → Bool
  | [] => true
  | e :: rest =>
      (match e with
       | .connect _ a => !(s.connections.any (fun c => c.peer == a))
       | .disconnect _ => true)
      && freshConnects (applyEvent s e) rest

/-- A run of writes against the server: each element carries the writing
connection id, the write offset and the payload bytes, all directed at
the given attribute handle. -/
def runWrites (s : BTState) (handle : Handle)
    (ws : List (ConnectionId × Nat × List Nat)) : BTState :=
  ws.foldl (fun st w => (recv st w.1 handle w.2.1 w.2.2).1) s

/-! ### Helper lemmas -/

theorem findIdx?_none_of_all {α : Type} (p : α → Bool) (l : List α)
    (h : ∀ a ∈ l, p a = false) : l.findIdx? p = none :=
  List.findIdx?_eq_none_iff.mpr h

/-- A demonstration state: registration complete (handles 1, 2, 3), two
connected peers 7 and 8, neither subscribed, no pending indication. -/
def demoS : BTState :=
  { gatt_if := some 0, service_handle := some 10, recv_handle := some 1,
    ind_handle := some 2, ind_cccd_handle := some 3,
    connections := [⟨7, 100, false, none⟩, ⟨8, 101, false, none⟩],
    ind_confirmed := none, connected := true, received_data := [] }

/-! ### C4 -/

/-- C4 counterexample: after connecting peers 7 and 8 and then
disconnecting peer 7, the connection table still holds an entry, yet the
coarse connected flag is false — delete_conn clears it unconditionally,
so the flag does not equal table non-emptiness. -/
theorem delete_conn_flag_mismatch_cex :
    (delete_conn (runEvents initBT
        [ConnEvent.connect 100 7, ConnEvent.connect 101 8]) 7).1.connections ≠ []
    ∧ (delete_conn (runEvents initBT
        [ConnEvent.connect 100 7, ConnEvent.connect 101 8]) 7).1.connected = false := by
  decide

/-- C4 (amended): every delete_conn (peer-disconnected event) sets the
coarse connected flag to false, unconditionally — whether or not entries
remain in the connection table. -/
theorem delete_conn_connected_always_false (s : BTState) (a : BdAddr) :
    (delete_conn s a).1.connected = false := by
  simp [delete_conn]

/-! ### C5 -/

/-- C5: a peer-disconnected event that removes the last remaining
connection-table entry empties the table and issues exactly one
advertising-restart request; a disconnect that leaves the table
non-empty issues none. -/
theorem delete_conn_adv_restart (s : BTState) (a : BdAddr) :
    (s.connections.map Connection.peer = [a] →
      (delete_conn s a).1.connections = [] ∧ (delete_conn s a).2 = 1)
    ∧ ((delete_conn s a).1.connections ≠ [] → (delete_conn s a).2 = 0) := by
  constructor
  · intro hmap
    match hc : s.connections, hmap with
    | [c], hmap =>
      have hpa : c.peer = a := by simpa using hmap
      simp [delete_conn, hc, List.findIdx?_cons, hpa, swapRemove]
  · intro hne
    simp only [delete_conn] at hne ⊢
    rcases h : (match s.connections.findIdx? (fun c => c.peer == a) with
      | some i => swapRemove s.connections i
      | none => s.connections) with _ | ⟨x, xs⟩ <;> simp_all

/-- Witness for C5: peer 7 is the sole connection; disconnecting it
empties the table and issues one restart, while disconnecting peer 7
from the two-peer demo state leaves peer 8 and issues no restart. -/
theorem delete_conn_adv_restart_witness :
    ((delete_conn (create_conn initBT 100 7).1 7).1.connections = []
      ∧ (delete_conn (create_conn initBT 100 7).1 7).2 = 1)
    ∧ (delete_conn demoS 7).2 = 0 := by
  refine ⟨(delete_conn_adv_restart (create_conn initBT 100 7).1 7).1 (by decide),
    (delete_conn_adv_restart demoS 7).2 (by decide)⟩

/-! ### C6 -/

/-- C6: a read request for the receive- or notify-characteristic handle
is answered with success and no value; a read of the CCCD handle is
answered with success and the fixed bytes [0x00, 0x00] (independent of
any connection's subscribed flag, as the response never consults the
connection table); any other handle is answered with an error status. -/
theorem read_dispatch_spec (s : BTState) (h : Handle) :
    (s.recv_handle = some h ∨ s.ind_handle = some h →
      readDispatch s h = ⟨.ok, none⟩)
    ∧ (s.ind_cccd_handle = some h → s.recv_handle ≠ some h →
      s.ind_handle ≠ some h → readDispatch s h = ⟨.ok, some [0x00, 0x00]⟩)
    ∧ (s.recv_handle ≠ some h → s.ind_handle ≠ some h →
      s.ind_cccd_handle ≠ some h → readDispatch s h = ⟨.error, none⟩)
    ∧ (∀ conns : List Connection,
      readDispatch { s with connections := conns } h = readDispatch s h) := by
  refine ⟨?_, ?_, ?_, ?_⟩
  · rintro (hr | hi)
    · simp [readDispatch, hr]
    · by_cases hr : s.recv_handle = some h
      · simp [readDispatch, hr]
      · simp [readDispatch, hr, hi]
  · intro hc hr hi
    simp [readDispatch, hr, hi, hc]
  · intro hr hi hc
    simp [readDispatch, hr, hi, hc]
  · intro conns
    rfl

/-- Witness for C6 on the demo state (recv handle 1, notify handle 2,
CCCD handle 3): reads of 1, 3 and 9 get the three response shapes. -/
theorem read_dispatch_spec_witness :
    readDispatch demoS 1 = ⟨.ok, none⟩
    ∧ readDispatch demoS 3 = ⟨.ok, some [0x00, 0x00]⟩
    ∧ readDispatch demoS 9 = ⟨.error, none⟩ := by
  refine ⟨(read_dispatch_spec demoS 1).1 (Or.inl rfl),
    (read_dispatch_spec demoS 3).2.1 rfl (by decide) (by decide),
    (read_dispatch_spec demoS 9).2.2.1 (by decide) (by decide) (by decide)⟩

/-! ### C7 -/

/-- C7 counterexample: a Confirm event carrying the non-success status
InvalidHandle does not leave the marker unchanged — check_gatt_status
tolerates every status outside {Error, InternalError, Busy}, so the
handler proceeds and clears the pending marker. -/
theorem on_confirm_tolerated_status_cex :
    RGattStatus.invalidHandle ≠ RGattStatus.ok
    ∧ (onConfirm { initBT with ind_confirmed := some 5 }
        RGattStatus.invalidHandle).1 = ConfirmOutcome.cleared
    ∧ (onConfirm { initBT with ind_confirmed := some 5 }
        RGattStatus.invalidHandle).2.ind_confirmed = none := by
  decide

/-- C7 (amended): on a Confirm event whose status passes the status
check (success, or any unclassified status the translator tolerates),
a set pending marker is cleared and all waiters are woken, and an unset
marker hits the fatal unreachable assertion; only statuses in the
classified error set (Error, InternalError, Busy) leave the state
unchanged. -/
theorem on_confirm_spec (s : BTState) (st : RGattStatus) :
    (∀ x, check_gatt_status st = true → s.ind_confirmed = some x →
      onConfirm s st = (.cleared, { s with ind_confirmed := none }))
    ∧ (check_gatt_status st = true → s.ind_confirmed = none →
      onConfirm s st = (.fatalAssert, s))
    ∧ (st = .error ∨ st = .internalError ∨ st = .busy →
      onConfirm s st = (.statusError, s)) := by
  refine ⟨?_, ?_, ?_⟩
  · intro x hst hm
    simp [onConfirm, hst, hm]
  · intro hst hm
    simp [onConfirm, hst, hm]
  · rintro (h | h | h) <;> subst h <;> simp [onConfirm, check_gatt_status]

/-- Witness for C7 (amended): on a state with pending marker for peer 5,
an Ok Confirm clears the marker; on the empty initial state an Ok
Confirm hits the fatal assertion; a Busy Confirm leaves the marker. -/
theorem on_confirm_spec_witness :
    onConfirm { initBT with ind_confirmed := some 5 } .ok
      = (.cleared, initBT)
    ∧ onConfirm initBT .ok = (.fatalAssert, initBT)
    ∧ onConfirm { initBT with ind_confirmed := some 5 } .busy
      = (.statusError, { initBT with ind_confirmed := some 5 }) := by
  refine ⟨?_, ?_, ?_⟩
  · have h := (on_confirm_spec { initBT with ind_confirmed := some 5 } .ok).1
      5 rfl rfl
    simpa using h
  · exact (on_confirm_spec initBT .ok).2.1 rfl rfl
  · exact (on_confirm_spec { initBT with ind_confirmed := some 5 } .busy).2.2
      (Or.inr (Or.inr rfl))

/-! ### C10 -/

/-- C10: a write event whose connection id matches no entry of the
connection table is not handled: the state (inbound buffer, subscription
flags and all else) is unchanged and no write response is sent, even
when the attribute handle is the receive characteristic or the CCCD. -/
theorem write_unknown_conn_ignored (s : BTState) (cid : ConnectionId)
    (h : Handle) (off : Nat) (need_rsp is_prep : Bool) (v : List Nat)
    (hno : ∀ c ∈ s.connections, c.conn_id ≠ cid) :
    recv s cid h off v = (s, false)
    ∧ onWriteEvent s cid h off need_rsp is_prep v = (s, false) := by
  have hidx : s.connections.findIdx? (fun c => c.conn_id == cid) = none :=
    findIdx?_none_of_all _ _ (by
      intro c hc
      simpa using hno c hc)
  constructor
  · simp [recv, hidx]
  · simp [onWriteEvent, recv, hidx]

/-- Witness for C10: on the demo state (connection ids 100 and 101,
recv handle 1), a write from the unknown connection id 999 to the recv
handle changes nothing and answers nothing. -/
theorem write_unknown_conn_ignored_witness :
    recv demoS 999 1 0 [42] = (demoS, false)
    ∧ onWriteEvent demoS 999 1 0 true false [42] = (demoS, false) :=
  write_unknown_conn_ignored demoS 999 1 0 true false [42] (by decide)

/-! ### C1 -/

/-- C1: the indicate loop body issues an indication only when the
pending-indication marker is unset, and sets the marker to the indicated
peer's address in the same locked step; while the marker is set no pass
of any send invocation issues an indication (it blocks instead), and
once a successful Confirm event clears the marker the indication at
that slot is issued. -/
theorem indicate_single_outstanding (s : BTState) (i : Nat) :
    (∀ a s', indicateSlotBody s i = .issued a s' →
      s.ind_confirmed = none ∧ s'.ind_confirmed = some a)
    ∧ (∀ x, s.ind_confirmed = some x →
      ∀ a s', indicateSlotBody s i ≠ .issued a s')
    ∧ (∀ x, s.ind_confirmed = some x → i < s.connections.length →
      s.gatt_if ≠ none → s.ind_handle ≠ none →
      indicateSlotBody s i = .blocked
      ∧ indicateSlotBody (onConfirm s .ok).2 i =
          .issued (s.connections.getD i default).peer
            { s with ind_confirmed := some (s.connections.getD i default).peer }) := by
  refine ⟨?_, ?_, ?_⟩
  · intro a s' hiss
    cases hm : s.ind_confirmed with
    | none =>
      rw [indicateSlotBody] at hiss
      split at hiss
      · exact absurd hiss (by simp)
      · split at hiss
        · exact absurd hiss (by simp)
        · split at hiss
          · exact absurd hiss (by simp)
          · rw [hm] at hiss
            simp only [SlotOutcome.issued.injEq] at hiss
            refine ⟨rfl, ?_⟩
            rw [← hiss.2, ← hiss.1]
    | some x =>
      rw [indicateSlotBody] at hiss
      split at hiss
      · exact absurd hiss (by simp)
      · split at hiss
        · exact absurd hiss (by simp)
        · split at hiss
          · exact absurd hiss (by simp)
          · rw [hm] at hiss
            exact absurd hiss (by simp)
  · intro x hm a s' hiss
    cases hm2 : s.ind_confirmed with
    | none => rw [hm] at hm2; exact absurd hm2 (by simp)
    | some y =>
      rw [indicateSlotBody] at hiss
      split at hiss
      · exact absurd hiss (by simp)
      · split at hiss
        · exact absurd hiss (by simp)
        · split at hiss
          · exact absurd hiss (by simp)
          · rw [hm2] at hiss
            exact absurd hiss (by simp)
  · intro x hm hlen hg hh
    constructor
    · rw [indicateSlotBody]
      rw [if_neg (by omega), if_neg hg, if_neg hh, hm]
    · have hclear : (onConfirm s .ok).2 = { s with ind_confirmed := none } := by
        simp [onConfirm, check_gatt_status, hm]
      have h1 : ¬ s.connections.length ≤ i := Nat.not_le.mpr hlen
      rw [hclear]
      simp [indicateSlotBody, h1, hg, hh]

/-- Witness for C1: on the demo state with a pending indication for
peer 7, slot 0 blocks rather than issuing; after the Ok Confirm clears
the marker, slot 0 issues the indication to peer 7 and re-sets the
marker to peer 7; and the issue step itself confirms the marker was
unset before and set after. -/
theorem indicate_single_outstanding_witness :
    (indicateSlotBody { demoS with ind_confirmed := some 7 } 0 = .blocked
      ∧ indicateSlotBody
          (onConfirm { demoS with ind_confirmed := some 7 } .ok).2 0 =
        .issued 7 { demoS with ind_confirmed := some 7 })
    ∧ (demoS.ind_confirmed = none
      ∧ ({ demoS with ind_confirmed := some 7 } : BTState).ind_confirmed
          = some 7) := by
  refine ⟨?_, ?_⟩
  · have h := (indicate_single_outstanding
      { demoS with ind_confirmed := some 7 } 0).2.2 7 rfl (by decide)
      (by decide) (by decide)
    simpa using h
  · have h := (indicate_single_outstanding demoS 0).1 7
      { demoS with ind_confirmed := some 7 } (by decide)
    simpa using h

/-! ### C3 -/

/-- C3: for a write event from a connection present in the table
(first match at index j) against the CCCD handle, offset 0 with payload
[0x02, 0x00] sets that connection's subscribed flag to true; offset 0
with any other 2-byte payload sets it to false; any other offset or
payload length leaves the state entirely unchanged, and in every case
the write is handled without an error. -/
theorem cccd_write_spec (s : BTState) (cid : ConnectionId) (h : Handle)
    (j : Nat)
    (hj : s.connections.findIdx? (fun c => c.conn_id == cid) = some j)
    (hc : s.ind_cccd_handle = some h) :
    recv s cid h 0 [2, 0] =
      ({ s with connections := (s.connections.set j
          { s.connections.getD j default with subscribed := true }) }, true)
    ∧ (∀ b0 b1, ¬ (b0 = 2 ∧ b1 = 0) →
      recv s cid h 0 [b0, b1] =
        ({ s with connections := (s.connections.set j
            { s.connections.getD j default with subscribed := false }) }, true))
    ∧ (∀ off (v : List Nat), ¬ (off = 0 ∧ v.length = 2) →
      recv s cid h off v = (s, true)) := by
  refine ⟨?_, ?_, ?_⟩
  · simp [recv, hj, hc]
  · intro b0 b1 hne
    have hv : b0 + 256 * b1 ≠ 2 := by omega
    have hv2 : (b0 + 256 * b1 == 2) = false := by simpa using hv
    simp [recv, hj, hc, hv2]
  · intro off v hnv
    simp [recv, hj, hc, hnv]

/-- Witness for C3 on the demo state (CCCD handle 3, connection id 100
at index 0, initially unsubscribed): the enable write subscribes peer 7,
a zero write leaves it unsubscribed, and a write at offset 1 changes
nothing; all three are handled. -/
theorem cccd_write_spec_witness :
    recv demoS 100 3 0 [2, 0] =
      ({ demoS with
          connections := [⟨7, 100, true, none⟩, ⟨8, 101, false, none⟩] }, true)
    ∧ recv demoS 100 3 0 [0, 0] = (demoS, true)
    ∧ recv demoS 100 3 1 [2, 0] = (demoS, true) := by
  have H := cccd_write_spec demoS 100 3 0 (by decide) rfl
  refine ⟨?_, ?_, ?_⟩
  · rw [H.1]; decide
  · rw [H.2.1 0 0 (by decide)]; decide
  · rw [H.2.2 1 [2, 0] (by decide)]

/-! ### C8 -/

/-- C8: one invocation of indicate (the send path), with every wait
resolved by a confirmation, issues exactly one indication to every
connection-table slot in order, irrespective of the subscribed flags of
the connections — the flag is never consulted. -/
theorem indicate_every_slot (s : BTState) (g hI : Nat)
    (hg : s.gatt_if = some g) (hh : s.ind_handle = some hI)
    (hlen : s.connections.length ≤ MAX_CONNECTIONS) :
    (indicateRun s).2 = s.connections.map Connection.peer := by
  rcases hc : s.connections with _ | ⟨c1, _ | ⟨c2, _ | ⟨c3, tl⟩⟩⟩
  · rcases hm : s.ind_confirmed with _ | x <;>
      simp [indicateRun, MAX_CONNECTIONS, List.range_succ, runSlot,
        indicateSlotBody, hc, hm, hg, hh]
  · rcases hm : s.ind_confirmed with _ | x <;>
      simp [indicateRun, MAX_CONNECTIONS, List.range_succ, runSlot,
        indicateSlotBody, hc, hm, hg, hh]
  · rcases hm : s.ind_confirmed with _ | x <;>
      simp [indicateRun, MAX_CONNECTIONS, List.range_succ, runSlot,
        indicateSlotBody, hc, hm, hg, hh]
  · rw [hc] at hlen
    simp [MAX_CONNECTIONS] at hlen

/-- Witness for C8: the demo state has two connections (peers 7 and 8),
neither subscribed; one indicate run issues indications to both slots in
sequence. -/
theorem indicate_every_slot_witness : (indicateRun demoS).2 = [7, 8] := by
  have H := indicate_every_slot demoS 0 2 rfl rfl (by decide)
  rw [H]; decide

/-! ### C9 -/

theorem findIdx?_isSome_of_mem {α : Type} (p : α → Bool) (l : List α)
    (a : α) (ha : a ∈ l) (hp : p a = true) : ∃ j, l.findIdx? p = some j := by
  have hany : l.any p = true := List.any_eq_true.mpr ⟨a, ha, hp⟩
  have hs : (l.findIdx? p).isSome = true := by
    rw [List.findIdx?_isSome, hany]
  exact Option.isSome_iff_exists.mp hs

/-- A write from a connection present in the table to the recv handle
(distinct from the CCCD handle) appends the payload to the inbound
buffer, changes nothing else, and is handled. -/
theorem recv_handle_append (s : BTState) (cid : ConnectionId) (h : Handle)
    (off : Nat) (v : List Nat)
    (hrecv : s.recv_handle = some h) (hcccd : s.ind_cccd_handle ≠ some h)
    (hc : ∃ c ∈ s.connections, c.conn_id = cid) :
    recv s cid h off v =
      ({ s with received_data := s.received_data ++ v }, true) := by
  obtain ⟨c, hcmem, hcid⟩ := hc
  obtain ⟨j, hj⟩ := findIdx?_isSome_of_mem (fun c => c.conn_id == cid)
    s.connections c hcmem (by simpa using hcid)
  simp [recv, hj, hcccd, hrecv]

/-- Folding a sequence of recv-handle writes appends the concatenation
of the payloads, in order, to the inbound buffer. -/
theorem runWrites_eq (s : BTState) (h : Handle)
    (ws : List (ConnectionId × Nat × List Nat))
    (hrecv : s.recv_handle = some h) (hcccd : s.ind_cccd_handle ≠ some h)
    (hcids : ∀ w ∈ ws, ∃ c ∈ s.connections, c.conn_id = w.1) :
    runWrites s h ws =
      { s with received_data :=
          s.received_data ++ (ws.map (fun w => w.2.2)).flatten } := by
  induction ws generalizing s with
  | nil => simp [runWrites]
  | cons w ws ih =>
    have hstep := recv_handle_append s w.1 h w.2.1 w.2.2 hrecv hcccd
      (hcids w (by simp))
    have hstep1 : (recv s w.1 h w.2.1 w.2.2).1 =
        { s with received_data := s.received_data ++ w.2.2 } := by
      rw [hstep]
    have hrun : runWrites s h (w :: ws) =
        runWrites (recv s w.1 h w.2.1 w.2.2).1 h ws := by
      simp [runWrites]
    rw [hrun, hstep1,
      ih { s with received_data := s.received_data ++ w.2.2 } hrecv hcccd
        (fun w2 hw2 => hcids w2 (by simp [hw2]))]
    simp

/-- C9: after any sequence of writes to the recv-characteristic handle
from connections present in the table, starting from an empty inbound
buffer, get_received_data returns the concatenation of the payloads in
write order and clears the buffer, so a second drain before any new
write returns the empty byte sequence. -/
theorem recv_drain_spec (s : BTState) (h : Handle)
    (ws : List (ConnectionId × Nat × List Nat))
    (hrecv : s.recv_handle = some h) (hcccd : s.ind_cccd_handle ≠ some h)
    (hcids : ∀ w ∈ ws, ∃ c ∈ s.connections, c.conn_id = w.1)
    (hbuf : s.received_data = []) :
    (get_received_data (runWrites s h ws)).1 =
      (ws.map (fun w => w.2.2)).flatten
    ∧ (get_received_data (get_received_data (runWrites s h ws)).2).1
      = [] := by
  rw [runWrites_eq s h ws hrecv hcccd hcids]
  simp [get_received_data, hbuf]

/-- Witness for C9: peers 100 and 101 of the demo state write [1, 2]
and [3] to the recv handle; the first drain yields [1, 2, 3] and the
second drain yields []. -/
theorem recv_drain_spec_witness :
    (get_received_data
      (runWrites demoS 1 [(100, 0, [1, 2]), (101, 0, [3])])).1 = [1, 2, 3]
    ∧ (get_received_data
        (get_received_data
          (runWrites demoS 1 [(100, 0, [1, 2]), (101, 0, [3])])).2).1
      = [] := by
  have H := recv_drain_spec demoS 1 [(100, 0, [1, 2]), (101, 0, [3])]
    rfl (by decide) (by decide) rfl
  exact ⟨H.1.trans (by decide), H.2⟩

/-! ### C2 -/

theorem swapRemove_length_le {α : Type} (l : List α) (i : Nat) :
    (swapRemove l i).length ≤ l.length := by
  unfold swapRemove
  cases h : l.getLast? with
  | none => simp
  | some x =>
    simp only [List.length_dropLast, List.length_set]
    omega

theorem swapRemove_subset {α : Type} (l : List α) (i : Nat) :
    swapRemove l i ⊆ l := by
  unfold swapRemove
  cases h : l.getLast? with
  | none => simp
  | some x =>
    intro b hb
    have hb2 : b ∈ l.set i x := (List.dropLast_sublist _).subset hb
    rcases List.mem_or_eq_of_mem_set hb2 with hmem | heq
    · exact hmem
    · rw [heq]
      exact List.mem_of_mem_getLast? h

theorem applyEvent_len (s : BTState) (e : ConnEvent)
    (hlen : s.connections.length ≤ MAX_CONNECTIONS) :
    (applyEvent s e).connections.length ≤ MAX_CONNECTIONS := by
  cases e with
  | connect cid a =>
    simp only [applyEvent, create_conn]
    split
    · rename_i hlt
      simp only [List.length_append, List.length_singleton]
      omega
    · simpa using hlen
  | disconnect a =>
    simp only [applyEvent, delete_conn]
    cases hidx : s.connections.findIdx? (fun c => c.peer == a) with
    | none => simpa [hidx] using hlen
    | some i =>
      simp only [hidx]
      exact le_trans (swapRemove_length_le s.connections i) hlen

theorem applyEvent_nodup (s : BTState) (e : ConnEvent)
    (hlen : s.connections.length ≤ MAX_CONNECTIONS)
    (hnd : (s.connections.map Connection.peer).Nodup)
    (hf : ∀ cid a, e = .connect cid a →
      s.connections.any (fun c => c.peer == a) = false) :
    ((applyEvent s e).connections.map Connection.peer).Nodup := by
  cases e with
  | connect cid a =>
    have hfr := hf cid a rfl
    simp only [List.any_eq_false] at hfr
    simp only [applyEvent, create_conn]
    split
    · simp only [List.map_append, List.map_cons, List.map_nil,
        List.nodup_append, List.disjoint_singleton]
      refine ⟨hnd, List.nodup_singleton _, ?_⟩
      intro hamem
      rcases List.mem_map.mp hamem with ⟨c, hcmem, hcp⟩
      exact hfr c hcmem (by simp [hcp])
    · exact hnd
  | disconnect a =>
    rcases hc : s.connections with _ | ⟨c1, rest1⟩
    · simp [applyEvent, delete_conn, hc]
    · rcases rest1 with _ | ⟨c2, rest2⟩
      · cases hb : c1.peer == a
        · simp [applyEvent, delete_conn, hc, List.findIdx?_cons, hb]
        · simp [applyEvent, delete_conn, hc, List.findIdx?_cons, hb, swapRemove]
      · have hrest : rest2 = [] := by
          rw [hc] at hlen
          simp only [List.length_cons, MAX_CONNECTIONS] at hlen
          exact List.eq_nil_of_length_eq_zero (by omega)
        subst hrest
        rw [hc] at hnd
        have h2 : c1.peer ≠ c2.peer := by
          simpa using hnd
        cases hb1 : c1.peer == a
        · cases hb2 : c2.peer == a
          · simp [applyEvent, delete_conn, hc, List.findIdx?_cons, hb1, hb2, h2]
          · simp [applyEvent, delete_conn, hc, List.findIdx?_cons, hb1, hb2,
              swapRemove]
        · simp [applyEvent, delete_conn, hc, List.findIdx?_cons, hb1, swapRemove]

theorem applyEvent_new_entries (t : BTState) (e : ConnEvent) (c : Connection)
    (hmem : c ∈ (applyEvent t e).connections) :
    c ∈ t.connections ∨ ∃ cid a, e = ConnEvent.connect cid a ∧ c.peer = a := by
  cases e with
  | connect cid a =>
    simp only [applyEvent, create_conn] at hmem
    split at hmem
    · simp only [List.mem_append, List.mem_singleton] at hmem
      rcases hmem with hm | hm
      · exact Or.inl hm
      · refine Or.inr ⟨cid, a, rfl, ?_⟩
        rw [hm]
    · exact Or.inl (by simpa using hmem)
  | disconnect a =>
    refine Or.inl ?_
    simp only [applyEvent, delete_conn] at hmem
    cases hidx : t.connections.findIdx? (fun c => c.peer == a) with
    | none =>
      rw [hidx] at hmem
      simpa using hmem
    | some i =>
      rw [hidx] at hmem
      simp only [] at hmem
      exact swapRemove_subset t.connections i hmem

theorem applyEvent_removed_entries (t : BTState) (e : ConnEvent)
    (c : Connection)
    (hlen : t.connections.length ≤ MAX_CONNECTIONS)
    (hmem : c ∈ t.connections) :
    c ∈ (applyEvent t e).connections
    ∨ ∃ a, e = ConnEvent.disconnect a ∧ c.peer = a := by
  cases e with
  | connect cid a =>
    refine Or.inl ?_
    simp only [applyEvent, create_conn]
    split
    · simp [hmem]
    · simpa using hmem
  | disconnect a =>
    rcases hc : t.connections with _ | ⟨c1, rest1⟩
    · rw [hc] at hmem
      simp at hmem
    · rcases rest1 with _ | ⟨c2, rest2⟩
      · rw [hc] at hmem
        simp only [List.mem_singleton] at hmem
        subst hmem
        cases hb : c.peer == a
        · refine Or.inl ?_
          simp [applyEvent, delete_conn, hc, List.findIdx?_cons, hb]
        · exact Or.inr ⟨a, rfl, by simpa using hb⟩
      · have hrest : rest2 = [] := by
          rw [hc] at hlen
          simp only [List.length_cons, MAX_CONNECTIONS] at hlen
          exact List.eq_nil_of_length_eq_zero (by omega)
        subst hrest
        rw [hc] at hmem
        simp only [List.mem_cons, List.mem_singleton, List.not_mem_nil,
          or_false] at hmem
        cases hb1 : c1.peer == a
        · cases hb2 : c2.peer == a
          · refine Or.inl ?_
            simp only [applyEvent, delete_conn, hc]
            simp [List.findIdx?_cons, hb1, hb2]
            tauto
          · rcases hmem with hm | hm
            · refine Or.inl ?_
              subst hm
              simp [applyEvent, delete_conn, hc, List.findIdx?_cons, hb1, hb2,
                swapRemove]
            · exact Or.inr ⟨a, rfl, by subst hm; simpa using hb2⟩
        · rcases hmem with hm | hm
          · exact Or.inr ⟨a, rfl, by subst hm; simpa using hb1⟩
          · refine Or.inl ?_
            subst hm
            simp [applyEvent, delete_conn, hc, List.findIdx?_cons, hb1,
              swapRemove]

theorem runEvents_bound (s : BTState) (evs : List ConnEvent)
    (hlen : s.connections.length ≤ MAX_CONNECTIONS)
    (hnd : (s.connections.map Connection.peer).Nodup)
    (hfresh : freshConnects s evs = true) :
    (runEvents s evs).connections.length ≤ MAX_CONNECTIONS
    ∧ ((runEvents s evs).connections.map Connection.peer).Nodup := by
  induction evs generalizing s with
  | nil => exact ⟨hlen, hnd⟩
  | cons e evs ih =>
    simp only [freshConnects, Bool.and_eq_true] at hfresh
    have hfr := hfresh.1
    have hlen' := applyEvent_len s e hlen
    have hnd' : ((applyEvent s e).connections.map Connection.peer).Nodup := by
      apply applyEvent_nodup s e hlen hnd
      intro cid a he
      subst he
      simpa using hfr
    have hrun : runEvents s (e :: evs) = runEvents (applyEvent s e) evs := by
      simp [runEvents]
    rw [hrun]
    exact ih (applyEvent s e) hlen' hnd' hfresh.2

/-- C2 counterexample: the code never checks whether a connecting
address is already present, so two peer-connected events carrying the
same address 7 (with distinct connection ids) produce a table with two
entries whose peer addresses coincide — the uniqueness half of the
claim fails for this event sequence. -/
theorem conn_table_duplicate_addr_cex :
    (runEvents initBT [ConnEvent.connect 100 7, ConnEvent.connect 101 7]).connections.length = 2
    ∧ ¬ ((runEvents initBT
        [ConnEvent.connect 100 7, ConnEvent.connect 101 7]).connections.map
          Connection.peer).Nodup := by
  decide

/-- The MAX_CONNECTIONS capacity bound is preserved by every event
sequence, with no freshness assumption: create_conn refuses a push at
capacity regardless of the incoming address. -/
theorem runEvents_len (s : BTState) (evs : List ConnEvent)
    (hlen : s.connections.length ≤ MAX_CONNECTIONS) :
    (runEvents s evs).connections.length ≤ MAX_CONNECTIONS := by
  induction evs generalizing s with
  | nil => exact hlen
  | cons e evs ih =>
    have hrun : runEvents s (e :: evs) = runEvents (applyEvent s e) evs := by
      simp [runEvents]
    rw [hrun]
    exact ih (applyEvent s e) (applyEvent_len s e hlen)

/-- C2 (amended): for every sequence of connect/disconnect events —
fresh or not — the connection table never exceeds MAX_CONNECTIONS (2)
entries; peer addresses stay pairwise distinct provided every connect
event carries an address not already present in the table (the code
does not enforce this itself); and, per event, entries appear only
through a connect event carrying that entry's address and disappear
only through a disconnect event carrying that entry's address. -/
theorem conn_table_invariant (s : BTState) (evs : List ConnEvent)
    (hlen : s.connections.length ≤ MAX_CONNECTIONS) :
    (runEvents s evs).connections.length ≤ MAX_CONNECTIONS
    ∧ ((s.connections.map Connection.peer).Nodup →
        freshConnects s evs = true →
        ((runEvents s evs).connections.map Connection.peer).Nodup)
    ∧ (∀ (t : BTState) (e : ConnEvent) (c : Connection),
        c ∈ (applyEvent t e).connections →
        c ∈ t.connections ∨ ∃ cid a, e = ConnEvent.connect cid a ∧ c.peer = a)
    ∧ (∀ (t : BTState) (e : ConnEvent) (c : Connection),
        t.connections.length ≤ MAX_CONNECTIONS → c ∈ t.connections →
        c ∈ (applyEvent t e).connections
        ∨ ∃ a, e = ConnEvent.disconnect a ∧ c.peer = a) := by
  exact ⟨runEvents_len s evs hlen,
    fun hnd hfresh => (runEvents_bound s evs hlen hnd hfresh).2,
    applyEvent_new_entries, applyEvent_removed_entries⟩

/-- Witness for C2 (amended): the non-fresh sequence that connects
address 7 twice and then address 9 still respects the capacity bound,
and the fresh sequence connecting peers 7 and 8 then disconnecting 7
keeps the addresses pairwise distinct. -/
theorem conn_table_invariant_witness :
    (runEvents initBT [ConnEvent.connect 100 7, ConnEvent.connect 101 7,
      ConnEvent.connect 102 9]).connections.length ≤ MAX_CONNECTIONS
    ∧ ((runEvents initBT [ConnEvent.connect 100 7, ConnEvent.connect 101 8,
        ConnEvent.disconnect 7]).connections.map Connection.peer).Nodup := by
  have H1 := conn_table_invariant initBT [ConnEvent.connect 100 7,
    ConnEvent.connect 101 7, ConnEvent.connect 102 9] (by decide)
  have H2 := conn_table_invariant initBT [ConnEvent.connect 100 7,
    ConnEvent.connect 101 8, ConnEvent.disconnect 7] (by decide)
  exact ⟨H1.1, H2.2.1 (by decide) (by decide)⟩
